import Mathlib

/-!
# Verification of the MFL front end (lexer + parser)

Shallow embedding of `src/lexer.rs` and `src/parser.rs` of the MFL
repository (a Kaleidoscope-style language front end), together with proofs
settling the frozen claims about the natural-language specification.

Modelling conventions:
* Source text is a `List Char`; the Rust byte cursor `pos` coincides with the
  character count on the ASCII inputs all claims use, so lexemes are taken
  directly from the consumed characters instead of `src[start..pos]` slices.
* `Token.Number` carries the raw lexeme text.  The Rust lexer immediately
  converts it with `parse::<f64>().unwrap()`; none of the claims below
  depends on floating-point values, only on token identity and on the
  integer-valued precedence literals, so the conversion is modelled by
  `precNumVal` exactly where the parser consumes it (see its doc comment).
* A Rust loop that can run forever is modelled by an `Option`-valued
  function returning `none` exactly on the inputs where the loop never
  breaks (the comment loop: `chars.next()` yields `None` forever once the
  stream is exhausted, and `None == Some('\n')` is false, so the loop in
  `Lexer::lex` lines 128-135 never exits when no newline remains).
* The parser's fallible cursor operations return a four-way result:
  `ok`/`err` mirror `Result`, `panic` models the out-of-bounds index panic
  of the unchecked `Parser::curr`, and `out` is the fuel-exhaustion marker
  of the embedding (never produced when enough fuel is supplied; all
  general theorems quantify over the fuel).
* Rust's `char::is_whitespace` / `char::is_alphanumeric` are Unicode
  predicates; Lean's `Char.isWhitespace` / `Char.isAlphanum` agree with
  them on the ASCII inputs used by every claim.
-/

namespace MFL

/-- Token type of `src/lexer.rs` (enum `Token`).  `Number` carries the raw
lexeme instead of the converted `f64`; see the module doc comment. -/
inductive Token : Type where
  | Binary
  | Comma
  | Comment
  | Def
  | Else
  | EOF
  | Extern
  | For
  | Ident (s : String)
  | If
  | In
  | LParen
  | Number (lexeme : String)
  | Op (c : Char)
  | RParen
  | Then
  | Unary
  | Var
  deriving DecidableEq, Repr

/-- `LexError` of `src/lexer.rs` lines 30-34.  Declared (with both fields) so
that "the error variant is never constructed" is a statement about the real
result type; the lexer indeed never builds a value of it. -/
structure LexError : Type where
  error : String
  index : Nat
  deriving DecidableEq, Repr

/-- `LexResult` of `src/lexer.rs` line 57. -/
abbrev LexResult : Type := Except LexError Token

/-- Rust `char::is_digit(16)`: `0-9`, `a-f`, `A-F` (number-literal
continuation test, `src/lexer.rs` line 149). -/
def isDig16 (c : Char) : Bool :=
  c.isDigit || ('a' ≤ c && c ≤ 'f') || ('A' ≤ c && c ≤ 'F')

/-- The `#` line-comment loop of `Lexer::lex` (`src/lexer.rs` lines 128-135):
`loop { let ch = chars.next(); if ch == Some('\n') { break } }`.
Returns the characters after the newline; `none` when no newline remains,
in which case the Rust loop runs forever (`chars.next()` returns `None`
on every further iteration and never equals `Some('\n')`). -/
def comment_loop : List Char → Option (List Char)
  | [] => none
  | c :: rest => if c = '\n' then some rest else comment_loop rest

/-- The number-literal loop of `Lexer::lex` (`src/lexer.rs` lines 142-157):
peeks; on end-of-input it executes `return Ok(EOF)` (discarding the scanned
literal); otherwise it consumes while the character is `.` or a base-16
digit, then yields the accumulated lexeme as a `Number` token. -/
def lexNumber (acc : List Char) : List Char → LexResult × List Char
  | [] => (Except.ok Token.EOF, [])
  | c :: rest =>
    if c = '.' || isDig16 c then lexNumber (acc ++ [c]) rest
    else (Except.ok (Token.Number (String.mk acc)), c :: rest)

/-- Reserved-word recognition of `Lexer::lex` (`src/lexer.rs` lines 177-191). -/
def keywordOrIdent (s : String) : Token :=
  match s with
  | "def" => Token.Def
  | "extern" => Token.Extern
  | "if" => Token.If
  | "then" => Token.Then
  | "else" => Token.Else
  | "for" => Token.For
  | "in" => Token.In
  | "unary" => Token.Unary
  | "binary" => Token.Binary
  | "var" => Token.Var
  | ident => Token.Ident ident

/-- The identifier loop of `Lexer::lex` (`src/lexer.rs` lines 162-175):
peeks; on end-of-input it executes `return Ok(EOF)` (discarding the scanned
identifier); otherwise it consumes while the character is `_` or
alphanumeric, then matches the lexeme against the reserved words. -/
def lexIdent (acc : List Char) : List Char → LexResult × List Char
  | [] => (Except.ok Token.EOF, [])
  | c :: rest =>
    if c = '_' || c.isAlphanum then lexIdent (acc ++ [c]) rest
    else (Except.ok (keywordOrIdent (String.mk acc)), c :: rest)

/-- `Lexer::lex` (`src/lexer.rs` lines 79-205) on the remaining characters.
Returns the produced `LexResult` and the characters still unconsumed;
`none` models non-termination (only possible through `comment_loop`). -/
def lex : List Char → Option (LexResult × List Char)
  | [] => some (Except.ok Token.EOF, [])
  | c :: rest =>
    if c.isWhitespace then lex rest
    else if c = '(' then some (Except.ok Token.LParen, rest)
    else if c = ')' then some (Except.ok Token.RParen, rest)
    else if c = ',' then some (Except.ok Token.Comma, rest)
    else if c = '#' then
      (comment_loop rest).map fun rest' => (Except.ok Token.Comment, rest')
    else if c = '.' || c.isDigit then some (lexNumber [c] rest)
    else if c.isAlpha || c = '_' then some (lexIdent [c] rest)
    else some (Except.ok (Token.Op c), rest)

/-- The `Iterator` implementation (`src/lexer.rs` lines 208-217) driven to
completion, as `Parser::new` does with `collect()`: `Ok(EOF)` and `Err(_)`
end the stream, any other token is kept.  `none` models non-termination of
an underlying `lex` call; the fuel only bounds the number of produced
tokens, and `tokensOf` supplies more fuel than any input can use. -/
def lexCollect : Nat → List Char → Option (List Token)
  | 0, _ => none
  | fuel + 1, cs =>
    match lex cs with
    | none => none
    | some (Except.error _, _) => some []
    | some (Except.ok t, rest) =>
      if t = Token.EOF then some []
      else (lexCollect fuel rest).map fun ts => t :: ts

/-- The token sequence `Parser::new` (`src/parser.rs` lines 76-85) collects
from a source string; `none` when lexing diverges. -/
def tokensOf (s : String) : Option (List Token) :=
  lexCollect (s.length + 1) s.toList

/-- AST node type `Expr` of `src/parser.rs` lines 8-43.  `Number` carries the
lexeme of its token (see the module doc comment).  The source field names
`end` (of `For`) and `variables` (of `VarIn`) are Lean keywords and are
rendered `stop` and `vars`. -/
inductive Expr : Type where
  | Binary (op : Char) (left : Expr) (right : Expr)
  | Call (fn_name : String) (args : List Expr)
  | Conditional (cond : Expr) (consequence : Expr) (alternative : Expr)
  | For (var_name : String) (start : Expr) (stop : Expr)
      (step : Option Expr) (body : Expr)
  | Number (lexeme : String)
  | Variable (name : String)
  | VarIn (vars : List (String × Option Expr)) (body : Expr)

/-- `Prototype` of `src/parser.rs` lines 46-52 (`prec: usize` modelled as
`Nat`). -/
structure Prototype : Type where
  name : String
  args : List String
  is_op : Bool
  prec : Nat

/-- `Function` of `src/parser.rs` lines 55-60.  Named `Func` because `Function`
is an existing root namespace in Lean's library. -/
structure Func : Type where
  prototype : Prototype
  body : Option Expr
  is_anon : Bool

/-- The mutable state of `Parser` (`src/parser.rs` lines 63-68): the eagerly
collected token sequence, the cursor, and the shared operator-precedence
table (the caller's `HashMap<char, i32>`, modelled as a lookup function). -/
structure PState : Type where
  tokens : List Token
  pos : Nat
  prec : Char → Option Int

/-- `HashMap::insert` on the precedence-table model: overwrites the entry
for `k`, leaves every other key unchanged. -/
def precInsert (k : Char) (v : Int) (m : Char → Option Int) : Char → Option Int :=
  fun c => if c = k then some v else m c

/-- The precedence table seeded by the caller (`src/main.rs` lines 89-96 and
164-171): `'='` 2, `'<'` 10, `'+'` 20, `'-'` 20, `'*'` 40, `'/'` 40. -/
def builtinPrec : Char → Option Int := fun c =>
  if c = '=' then some 2
  else if c = '<' then some 10
  else if c = '+' then some 20
  else if c = '-' then some 20
  else if c = '*' then some 40
  else if c = '/' then some 40
  else none

/-- Outcome of a parser step on the embedded state.  `ok`/`err` mirror
`Result<_, &'static str>` (the state is carried on `err` too: the Rust
parser mutates `self` and the caller's table in place, and those mutations
persist when an `Err` is returned).  `panic` models the index-out-of-bounds
panic of the unchecked `Parser::curr`.  `out` is the embedding's
fuel-exhaustion marker; it never arises with sufficient fuel, and the
general theorems hold for every fuel. -/
inductive PResult (α : Type) : Type where
  | ok : α → PState → PResult α
  | err : String → PState → PResult α
  | panic : PState → PResult α
  | out : PState → PResult α

/-- The state a parser step leaves behind, whatever its outcome. -/
def PResult.finalSt {α : Type} : PResult α → PState
  | .ok _ st => st
  | .err _ st => st
  | .panic st => st
  | .out st => st

/-- Sequencing that mirrors Rust's `?`: `err`, `panic` and `out` propagate. -/
def PResult.bind {α β : Type} : PResult α → (α → PState → PResult β) → PResult β
  | .ok a st, f => f a st
  | .err e st, _ => .err e st
  | .panic st, _ => .panic st
  | .out st, _ => .out st

/-- Sequencing that discards the result, mirroring an ignored
`self.advance();` call under `#[allow(unused_must_use)]`: the state mutation
(including an error's) persists and execution continues. -/
def PResult.discard {α β : Type} : PResult α → (PState → PResult β) → PResult β
  | .ok _ st, f => f st
  | .err _ st, f => f st
  | .panic st, _ => .panic st
  | .out st, _ => .out st

/-- `Parser::curr` (`src/parser.rs` lines 109-111): unchecked indexing
`self.tokens[self.pos]`; out of range it panics. -/
def curr (st : PState) : PResult Token :=
  match st.tokens.get? st.pos with
  | some t => .ok t st
  | none => .panic st

/-- `Parser::current` (`src/parser.rs` lines 115-121): checked lookup,
end-of-sequence normalized to the single message. -/
def current (st : PState) : PResult Token :=
  match st.tokens.get? st.pos with
  | some t => .ok t st
  | none => .err "Unexpected end of file." st

/-- `Parser::advance` (`src/parser.rs` lines 126-136): the cursor moves
first (the mutation persists even on the error path), then the bound is
checked. -/
def advance (st : PState) : PResult Unit :=
  let npos := st.pos + 1
  let st' : PState := { st with pos := npos }
  if npos < st.tokens.length then .ok () st' else .err "Unexpected end of file." st'

/-- `Parser::at_end` (`src/parser.rs` lines 139-141). -/
def at_end (st : PState) : Bool :=
  st.tokens.length ≤ st.pos

/-- `Parser::get_tok_precedence` (`src/parser.rs` lines 145-151): the current
token's table entry, defaulting to 100 for an operator symbol not in the
table, and -1 for a non-operator (or for an exhausted cursor, whose
`current` error the `if let` silently drops). -/
def get_tok_precedence (st : PState) : Int :=
  match current st with
  | .ok (Token.Op op) _ => (st.prec op).getD 100
  | _ => -1

/-- The numeric value the parser extracts from a `Number` token in a
`binary` declaration (`src/parser.rs` lines 176-184): in the source, the
token's `f64` value cast `as usize` (and `as i32` for the table).  The
token model carries the lexeme, so the cast is recomputed here as the value
of the leading decimal digits — exactly the source's result for every
literal made of decimal digits, and for a literal with a fractional part,
whose cast truncates toward zero.  (A lexeme Rust's float parser rejects
never reaches the parser: the lexer's `unwrap` would already have
panicked producing the token.) -/
def precNumVal (s : String) : Nat :=
  go s.toList 0
where
  /-- Value of the leading decimal digits. -/
  go : List Char → Nat → Nat
    | c :: rest, acc =>
      if c.isDigit then go rest (10 * acc + (c.toNat - '0'.toNat)) else acc
    | [], acc => acc

/-- The parameter-list loop of `Parser::parse_prototype` (`src/parser.rs`
lines 230-249): each parameter must be an identifier, followed by `,`
(continue) or `)` (stop); the two advances past `,` and `)` ignore their
result.  The fuel only bounds the iteration count. -/
def params_loop : Nat → List String → PState → PResult (List String)
  | 0, _, st => .out st
  | fuel + 1, args, st =>
    (curr st).bind fun t st =>
    match t with
    | Token.Ident name =>
      (advance st).bind fun _ st =>
      (curr st).bind fun t st =>
      match t with
      | Token.RParen => (advance st).discard fun st => .ok (args ++ [name]) st
      | Token.Comma => (advance st).discard fun st => params_loop fuel (args ++ [name]) st
      | _ => .err "Expected ',' or ')' character in prototype declaration." st
    | _ => .err "Expected identifier in parameter declaration." st

/-- The common tail of `Parser::parse_prototype` after the head forms
(`src/parser.rs` lines 209-256): require `(`; an immediate `)` yields an
empty parameter list (its advance ignores the result), otherwise run the
parameter loop; build the `Prototype`. -/
def proto_tail (fuel : Nat) (id : String) (is_operator : Bool) (precedence : Nat)
    (st : PState) : PResult Prototype :=
  (curr st).bind fun t st =>
  match t with
  | Token.LParen =>
    (advance st).bind fun _ st =>
    (curr st).bind fun t st =>
    match t with
    | Token.RParen =>
      (advance st).discard fun st =>
      .ok { name := id, args := [], is_op := is_operator, prec := precedence } st
    | _ =>
      (params_loop fuel [] st).bind fun args st =>
      .ok { name := id, args := args, is_op := is_operator, prec := precedence } st
  | _ => .err "Expected '(' character in prototype declaration." st

/-- `Parser::parse_prototype` (`src/parser.rs` lines 154-257).  Head forms:
plain identifier; `binary <op> [<number>]`, which (after the number's
advance succeeds, when present) inserts the operator into the shared
precedence table — with value 0 when no number literal follows; and
`unary <op>`. -/
def parse_prototype (fuel : Nat) (st : PState) : PResult Prototype :=
  (curr st).bind fun t st =>
  match t with
  | Token.Ident id =>
    (advance st).bind fun _ st =>
    proto_tail fuel id false 0 st
  | Token.Binary =>
    (advance st).bind fun _ st =>
    (curr st).bind fun t st =>
    match t with
    | Token.Op op =>
      (advance st).bind fun _ st =>
      (curr st).bind fun t st =>
      (match t with
       | Token.Number lexeme =>
         (advance st).bind fun _ st => .ok (precNumVal lexeme) st
       | _ => .ok 0 st).bind fun p st =>
      let st : PState := { st with prec := precInsert op (Int.ofNat p) st.prec }
      proto_tail fuel (String.push "binary" op) true p st
    | _ => .err "Expected operator in custom operator declaration." st
  | Token.Unary =>
    (advance st).bind fun _ st =>
    (curr st).bind fun t st =>
    match t with
    | Token.Op op =>
      (advance st).bind fun _ st =>
      proto_tail fuel (String.push "unary" op) true 0 st
    | _ => .err "Expected operator in custom operator declaration." st
  | _ => .err "Expected identifier in prototype declaration." st

/-- `Parser::parse_nb_expr` (`src/parser.rs` lines 301-310); the advance past
the literal ignores its result. -/
def parse_nb_expr (st : PState) : PResult Expr :=
  (curr st).bind fun t st =>
  match t with
  | Token.Number nb => (advance st).discard fun st => .ok (Expr.Number nb) st
  | _ => .err "Expected number literal." st

mutual

/-- `Parser::parse_expr` (`src/parser.rs` lines 293-298). -/
def parse_expr : Nat → PState → PResult Expr
  | 0, st => .out st
  | fuel + 1, st =>
    (parse_unary_expr fuel st).bind fun left st =>
    parse_binary_expr fuel 0 left st

/-- `Parser::parse_unary_expr` (`src/parser.rs` lines 387-404): a leading
operator symbol becomes a call to `unary<op>`; anything else falls through
to `parse_primary` (after `current()?`, whose error propagates). -/
def parse_unary_expr : Nat → PState → PResult Expr
  | 0, st => .out st
  | fuel + 1, st =>
    (current st).bind fun t st =>
    match t with
    | Token.Op ch =>
      (advance st).bind fun _ st =>
      (parse_unary_expr fuel st).bind fun operand st =>
      .ok (Expr.Call (String.push "unary" ch) [operand]) st
    | _ => parse_primary fuel st

/-- `Parser::parse_binary_expr` (`src/parser.rs` lines 407-436): precedence
climbing.  The loop is the tail-recursive call; the climb into a
tighter-binding right-hand side is the `curr_prec < next_prec` recursion. -/
def parse_binary_expr : Nat → Int → Expr → PState → PResult Expr
  | 0, _, _, st => .out st
  | fuel + 1, prec, left, st =>
    let curr_prec := get_tok_precedence st
    if curr_prec < prec || at_end st then .ok left st
    else
      (curr st).bind fun t st =>
      match t with
      | Token.Op op =>
        (advance st).bind fun _ st =>
        (parse_unary_expr fuel st).bind fun right st =>
        let next_prec := get_tok_precedence st
        (if curr_prec < next_prec then
          parse_binary_expr fuel (curr_prec + 1) right st
         else .ok right st).bind fun right st =>
        parse_binary_expr fuel prec (Expr.Binary op left right) st
      | _ => .err "Invalid operator." st

/-- `Parser::parse_primary` (`src/parser.rs` lines 575-585): dispatch on the
current token (read with the unchecked `curr`, without consuming it). -/
def parse_primary : Nat → PState → PResult Expr
  | 0, st => .out st
  | fuel + 1, st =>
    (curr st).bind fun t st =>
    match t with
    | Token.Ident _ => parse_id_expr fuel st
    | Token.Number _ => parse_nb_expr st
    | Token.LParen => parse_paren_expr fuel st
    | Token.If => parse_conditional_expr fuel st
    | Token.For => parse_for_expr fuel st
    | Token.Var => parse_var_expr fuel st
    | _ => .err "Unknown expression." st

/-- `Parser::parse_paren_expr` (`src/parser.rs` lines 313-331); the advance
past `)` ignores its result. -/
def parse_paren_expr : Nat → PState → PResult Expr
  | 0, st => .out st
  | fuel + 1, st =>
    (current st).bind fun t st =>
    match t with
    | Token.LParen =>
      (advance st).bind fun _ st =>
      (parse_expr fuel st).bind fun expr st =>
      (current st).bind fun t st =>
      match t with
      | Token.RParen => (advance st).discard fun st => .ok expr st
      | _ => .err "Expected ')' character at end of parenthesized expression." st
    | _ => .err "Expected '(' character at start of parenthesized expression." st

/-- `Parser::parse_id_expr` (`src/parser.rs` lines 334-384): identifier
alone is a variable (also when the advance past it fails at end of input);
a following `(` makes it a call.  An immediate `)` returns a zero-argument
call *without consuming the `)`*; otherwise the argument loop runs. -/
def parse_id_expr : Nat → PState → PResult Expr
  | 0, st => .out st
  | fuel + 1, st =>
    (curr st).bind fun t st =>
    match t with
    | Token.Ident id =>
      (match advance st with
       | .err _ st => .ok (Expr.Variable id) st
       | .panic st => .panic st
       | .out st => .out st
       | .ok _ st =>
        (curr st).bind fun t st =>
        match t with
        | Token.LParen =>
          (advance st).bind fun _ st =>
          (curr st).bind fun t st =>
          match t with
          | Token.RParen => .ok (Expr.Call id []) st
          | _ =>
            (parse_call_args fuel [] st).bind fun args st =>
            .ok (Expr.Call id args) st
        | _ => .ok (Expr.Variable id) st)
    | _ => .err "Expected identifier." st

/-- The argument loop of `Parser::parse_id_expr` (`src/parser.rs` lines
361-374): parse an expression, then expect `,` (continue) or `)` (break;
the final advance past it ignores its result). -/
def parse_call_args : Nat → List Expr → PState → PResult (List Expr)
  | 0, _, st => .out st
  | fuel + 1, args, st =>
    (parse_expr fuel st).bind fun e st =>
    (current st).bind fun t st =>
    match t with
    | Token.Comma =>
      (advance st).bind fun _ st => parse_call_args fuel (args ++ [e]) st
    | Token.RParen =>
      (advance st).discard fun st => .ok (args ++ [e]) st
    | _ => .err "Expected ',' character in function call." st

/-- `Parser::parse_conditional_expr` (`src/parser.rs` lines 439-466):
`if <expr> then <expr> else <expr>`, all parts mandatory; a `current` error
at the keyword positions is replaced by the keyword message. -/
def parse_conditional_expr : Nat → PState → PResult Expr
  | 0, st => .out st
  | fuel + 1, st =>
    (advance st).bind fun _ st =>
    (parse_expr fuel st).bind fun cond st =>
    (match current st with
     | .ok Token.Then st => advance st
     | .panic st => .panic st
     | .out st => .out st
     | .ok _ st => .err "Expected 'then' keyword." st
     | .err _ st => .err "Expected 'then' keyword." st).bind fun _ st =>
    (parse_expr fuel st).bind fun then_result st =>
    (match current st with
     | .ok Token.Else st => advance st
     | .panic st => .panic st
     | .out st => .out st
     | .ok _ st => .err "Expected 'else' keyword." st
     | .err _ st => .err "Expected 'else' keyword." st).bind fun _ st =>
    (parse_expr fuel st).bind fun else_result st =>
    .ok (Expr.Conditional cond then_result else_result) st

/-- `Parser::parse_for_expr` (`src/parser.rs` lines 469-523):
`for <ident> = <start>, <end> [, <step>] in <body>`. -/
def parse_for_expr : Nat → PState → PResult Expr
  | 0, st => .out st
  | fuel + 1, st =>
    (advance st).bind fun _ st =>
    (curr st).bind fun t st =>
    match t with
    | Token.Ident name =>
      (advance st).bind fun _ st =>
      (curr st).bind fun t st =>
      match t with
      | Token.Op '=' =>
        (advance st).bind fun _ st =>
        (parse_expr fuel st).bind fun start st =>
        (current st).bind fun t st =>
        (match t with
         | Token.Comma => advance st
         | _ => .err "Expected ',' character in for loop." st).bind fun _ st =>
        (parse_expr fuel st).bind fun stop st =>
        (current st).bind fun t st =>
        (match t with
         | Token.Comma =>
           (advance st).bind fun _ st =>
           (parse_expr fuel st).bind fun e st => .ok (some e) st
         | _ => .ok none st).bind fun step st =>
        (current st).bind fun t st =>
        (match t with
         | Token.In => advance st
         | _ => .err "Expected 'in' keyword in for loop." st).bind fun _ st =>
        (parse_expr fuel st).bind fun body st =>
        .ok (Expr.For name start stop step body) st
      | _ => .err "Expected '=' character in for loop." st
    | _ => .err "Expected identifier in for loop." st

/-- `Parser::parse_var_expr` (`src/parser.rs` lines 526-571):
`var <ident> [= <expr>] {, ...} in <body>`. -/
def parse_var_expr : Nat → PState → PResult Expr
  | 0, st => .out st
  | fuel + 1, st =>
    (advance st).bind fun _ st =>
    (parse_var_decls fuel [] st).bind fun vars st =>
    (parse_expr fuel st).bind fun body st =>
    .ok (Expr.VarIn vars body) st

/-- The binding loop of `Parser::parse_var_expr` (`src/parser.rs` lines
533-563): identifier, optional `= <initializer>`, then `,` (continue) or
`in` (stop). -/
def parse_var_decls : Nat → List (String × Option Expr) → PState →
    PResult (List (String × Option Expr))
  | 0, _, st => .out st
  | fuel + 1, vars, st =>
    (curr st).bind fun t st =>
    match t with
    | Token.Ident name =>
      (advance st).bind fun _ st =>
      (curr st).bind fun t st =>
      (match t with
       | Token.Op '=' =>
         (advance st).bind fun _ st =>
         (parse_expr fuel st).bind fun e st => .ok (some e) st
       | _ => .ok none st).bind fun initializer st =>
      (curr st).bind fun t st =>
      match t with
      | Token.Comma =>
        (advance st).bind fun _ st =>
        parse_var_decls fuel (vars ++ [(name, initializer)]) st
      | Token.In =>
        (advance st).bind fun _ st =>
        .ok (vars ++ [(name, initializer)]) st
      | _ => .err "Expected comma or 'in' keyword in variable declaration." st
    | _ => .err "Expected identifier in 'var..in' declaration." st

end

/-- `Parser::parse_def` (`src/parser.rs` lines 260-275): skip the `def`
keyword with an unchecked `self.pos += 1`, then prototype, then body. -/
def parse_def (fuel : Nat) (st : PState) : PResult Func :=
  (parse_prototype fuel { st with pos := st.pos + 1 }).bind fun proto st =>
  (parse_expr fuel st).bind fun body st =>
  .ok { prototype := proto, body := some body, is_anon := false } st

/-- `Parser::parse_extern` (`src/parser.rs` lines 278-290). -/
def parse_extern (fuel : Nat) (st : PState) : PResult Func :=
  (parse_prototype fuel { st with pos := st.pos + 1 }).bind fun proto st =>
  .ok { prototype := proto, body := none, is_anon := false } st

/-- `Parser::parse_toplevel_expr` (`src/parser.rs` lines 589-604): wrap a
bare expression in an anonymous `Function`. -/
def parse_toplevel_expr (fuel : Nat) (st : PState) : PResult Func :=
  (parse_expr fuel st).bind fun expr st =>
  .ok { prototype := { name := "anonymous", args := [], is_op := false, prec := 0 },
        body := some expr, is_anon := true } st

/-- The final `match result` of `Parser::parse` (`src/parser.rs` lines
95-105): a successful production with unconsumed tokens left is turned into
the structural error; an error passes through. -/
def finish_toplevel : PResult Func → PResult Func
  | .ok result st =>
    if !at_end st then .err "Unexpected token after parsed expression." st
    else .ok result st
  | r => r

/-- `Parser::parse` (`src/parser.rs` lines 88-106): dispatch on the current
token, then reject any leftover unconsumed tokens. -/
def parse (fuel : Nat) (st : PState) : PResult Func :=
  (current st).bind fun t st =>
  finish_toplevel
    (match t with
     | Token.Def => parse_def fuel st
     | Token.Extern => parse_extern fuel st
     | _ => parse_toplevel_expr fuel st)

/-- `Parser::new` (`src/parser.rs` lines 76-85): eagerly lex the whole input;
`none` when lexing diverges (see `comment_loop`). -/
def parser_new (input : String) (prec : Char → Option Int) : Option PState :=
  (tokensOf input).map fun ts => { tokens := ts, pos := 0, prec := prec }

/-- `Parser::new` followed by `parse`, as the caller in `src/main.rs` runs
them.  The fuel bound is generous for the input length; every concrete
theorem below evaluates this wrapper, certifying the bound suffices there. -/
def parseProgram (input : String) (prec : Char → Option Int) : Option (PResult Func) :=
  (parser_new input prec).map fun st => parse (4 * input.length + 64) st

/-! ## Frame lemmas: which parser steps can touch the precedence table

Every cursor operation and every expression-level production leaves the
shared precedence table exactly as it found it (whatever the outcome, since
the state is carried on every outcome).  The only write anywhere in the
parser is the `insert` in the `binary` head of `parse_prototype`. -/

theorem bind_pres {α β : Type} {x : PResult α} {st0 : PState}
    {f : α → PState → PResult β}
    (hx : (x.finalSt).prec = st0.prec)
    (hf : ∀ a st1, (((f a st1)).finalSt).prec = st1.prec) :
    (((x.bind f)).finalSt).prec = st0.prec := by
  cases x with
  | ok a st => exact (hf a st).trans hx
  | err e st => exact hx
  | panic st => exact hx
  | out st => exact hx

theorem discard_pres {α β : Type} {x : PResult α} {st0 : PState}
    {f : PState → PResult β}
    (hx : (x.finalSt).prec = st0.prec)
    (hf : ∀ st1, (((f st1)).finalSt).prec = st1.prec) :
    (((x.discard f)).finalSt).prec = st0.prec := by
  cases x with
  | ok a st => exact (hf st).trans hx
  | err e st => exact (hf st).trans hx
  | panic st => exact hx
  | out st => exact hx

theorem curr_finalSt (st : PState) : (curr st).finalSt = st := by
  unfold curr; split <;> rfl

theorem current_finalSt (st : PState) : (current st).finalSt = st := by
  unfold current; split <;> rfl

theorem curr_pres (st : PState) : ((curr st).finalSt).prec = st.prec := by
  rw [curr_finalSt]

theorem current_pres (st : PState) : ((current st).finalSt).prec = st.prec := by
  rw [current_finalSt]

theorem advance_pres (st : PState) : ((advance st).finalSt).prec = st.prec := by
  simp only [advance]
  split <;> rfl

theorem parse_nb_pres (st : PState) :
    ((parse_nb_expr st).finalSt).prec = st.prec := by
  unfold parse_nb_expr
  refine bind_pres (curr_pres st) ?_
  intro t st1
  cases t <;> try rfl
  exact discard_pres (advance_pres st1) fun _ => rfl

/-- The whole expression-production family never modifies the precedence
table, on any outcome and at any fuel. -/
theorem expr_family_pres : ∀ fuel : Nat,
    (∀ st, ((parse_expr fuel st).finalSt).prec = st.prec) ∧
    (∀ st, ((parse_unary_expr fuel st).finalSt).prec = st.prec) ∧
    (∀ p l st, ((parse_binary_expr fuel p l st).finalSt).prec = st.prec) ∧
    (∀ st, ((parse_primary fuel st).finalSt).prec = st.prec) ∧
    (∀ st, ((parse_paren_expr fuel st).finalSt).prec = st.prec) ∧
    (∀ st, ((parse_id_expr fuel st).finalSt).prec = st.prec) ∧
    (∀ args st, ((parse_call_args fuel args st).finalSt).prec = st.prec) ∧
    (∀ st, ((parse_conditional_expr fuel st).finalSt).prec = st.prec) ∧
    (∀ st, ((parse_for_expr fuel st).finalSt).prec = st.prec) ∧
    (∀ st, ((parse_var_expr fuel st).finalSt).prec = st.prec) ∧
    (∀ vars st, ((parse_var_decls fuel vars st).finalSt).prec = st.prec) := by
  intro fuel
  induction fuel with
  | zero =>
    exact ⟨fun _ => rfl, fun _ => rfl, fun _ _ _ => rfl, fun _ => rfl, fun _ => rfl,
      fun _ => rfl, fun _ _ => rfl, fun _ => rfl, fun _ => rfl, fun _ => rfl,
      fun _ _ => rfl⟩
  | succ fuel ih =>
    obtain ⟨ih_expr, ih_unary, ih_binary, ih_primary, ih_paren, ih_id, ih_args,
      ih_cond, ih_for, ih_var, ih_decls⟩ := ih
    refine ⟨?_, ?_, ?_, ?_, ?_, ?_, ?_, ?_, ?_, ?_, ?_⟩
    · -- parse_expr
      intro st
      simp only [parse_expr]
      exact bind_pres (ih_unary st) fun l st1 => ih_binary 0 l st1
    · -- parse_unary_expr
      intro st
      simp only [parse_unary_expr]
      refine bind_pres (current_pres st) ?_
      intro t st1
      cases t <;> try exact ih_primary st1
      exact bind_pres (advance_pres st1) fun _ st2 =>
        bind_pres (ih_unary st2) fun _ _ => rfl
    · -- parse_binary_expr
      intro p l st
      simp only [parse_binary_expr]
      split
      · rfl
      refine bind_pres (curr_pres st) ?_
      intro t st1
      cases t <;> try rfl
      refine bind_pres (advance_pres st1) fun _ st2 => ?_
      refine bind_pres (ih_unary st2) fun right st3 => ?_
      refine bind_pres ?_ fun right2 st4 => ih_binary p _ st4
      split
      · exact ih_binary _ right st3
      · rfl
    · -- parse_primary
      intro st
      simp only [parse_primary]
      refine bind_pres (curr_pres st) ?_
      intro t st1
      cases t <;> first
        | rfl
        | exact ih_id st1
        | exact parse_nb_pres st1
        | exact ih_paren st1
        | exact ih_cond st1
        | exact ih_for st1
        | exact ih_var st1
    · -- parse_paren_expr
      intro st
      simp only [parse_paren_expr]
      refine bind_pres (current_pres st) ?_
      intro t st1
      cases t <;> try rfl
      refine bind_pres (advance_pres st1) fun _ st2 => ?_
      refine bind_pres (ih_expr st2) fun e st3 => ?_
      refine bind_pres (current_pres st3) ?_
      intro t st4
      cases t <;> try rfl
      exact discard_pres (advance_pres st4) fun _ => rfl
    · -- parse_id_expr
      intro st
      simp only [parse_id_expr]
      refine bind_pres (curr_pres st) ?_
      intro t st1
      cases t <;> try rfl
      rename_i id
      have hadv := advance_pres st1
      cases h : advance st1 with
      | ok a st2 =>
        rw [h] at hadv
        dsimp only
        refine bind_pres ((curr_pres st2).trans hadv) ?_
        intro t st3
        cases t <;> try rfl
        refine bind_pres (advance_pres st3) fun _ st4 => ?_
        refine bind_pres (curr_pres st4) ?_
        intro t st5
        cases t <;>
          first
            | rfl
            | exact bind_pres (ih_args [] st5) fun _ _ => rfl
      | err e st2 => rw [h] at hadv; exact hadv
      | panic st2 => rw [h] at hadv; exact hadv
      | out st2 => rw [h] at hadv; exact hadv
    · -- parse_call_args
      intro args st
      simp only [parse_call_args]
      refine bind_pres (ih_expr st) fun e st1 => ?_
      refine bind_pres (current_pres st1) ?_
      intro t st2
      cases t <;> try rfl
      · exact bind_pres (advance_pres st2) fun _ st3 => ih_args _ st3
      · exact discard_pres (advance_pres st2) fun _ => rfl
    · -- parse_conditional_expr
      intro st
      simp only [parse_conditional_expr]
      refine bind_pres (advance_pres st) fun _ st1 => ?_
      refine bind_pres (ih_expr st1) fun cond st2 => ?_
      refine bind_pres ?_ fun _ st3 => ?_
      · have hcur := current_finalSt st2
        cases h : current st2 with
        | ok t stx =>
          rw [h] at hcur
          cases t <;> dsimp only <;>
            first
              | exact (advance_pres stx).trans (congrArg PState.prec hcur)
              | exact congrArg PState.prec hcur
        | err e stx => rw [h] at hcur; exact congrArg PState.prec hcur
        | panic stx => rw [h] at hcur; exact congrArg PState.prec hcur
        | out stx => rw [h] at hcur; exact congrArg PState.prec hcur
      refine bind_pres (ih_expr st3) fun thenr st4 => ?_
      refine bind_pres ?_ fun _ st5 => ?_
      · have hcur := current_finalSt st4
        cases h : current st4 with
        | ok t stx =>
          rw [h] at hcur
          cases t <;> dsimp only <;>
            first
              | exact (advance_pres stx).trans (congrArg PState.prec hcur)
              | exact congrArg PState.prec hcur
        | err e stx => rw [h] at hcur; exact congrArg PState.prec hcur
        | panic stx => rw [h] at hcur; exact congrArg PState.prec hcur
        | out stx => rw [h] at hcur; exact congrArg PState.prec hcur
      exact bind_pres (ih_expr st5) fun _ _ => rfl
    · -- parse_for_expr
      intro st
      simp only [parse_for_expr]
      refine bind_pres (advance_pres st) fun _ st1 => ?_
      refine bind_pres (curr_pres st1) ?_
      intro t st2
      cases t <;> try rfl
      refine bind_pres (advance_pres st2) fun _ st3 => ?_
      refine bind_pres (curr_pres st3) ?_
      intro t st4
      cases t <;> try rfl
      split
      case _ =>
        refine bind_pres (advance_pres st4) fun _ st5 => ?_
        refine bind_pres (ih_expr st5) fun start st6 => ?_
        refine bind_pres (current_pres st6) ?_
        intro t st7
        refine bind_pres ?_ fun _ st8 => ?_
        · cases t <;> first | rfl | exact advance_pres st7
        refine bind_pres (ih_expr st8) fun stop st9 => ?_
        refine bind_pres (current_pres st9) ?_
        intro t st10
        refine bind_pres ?_ fun step st11 => ?_
        · cases t <;> try rfl
          exact bind_pres (advance_pres st10) fun _ st11 =>
            bind_pres (ih_expr st11) fun _ _ => rfl
        refine bind_pres (current_pres st11) ?_
        intro t st12
        refine bind_pres ?_ fun _ st13 => ?_
        · cases t <;> first | rfl | exact advance_pres st12
        exact bind_pres (ih_expr st13) fun _ _ => rfl
      case _ => rfl
    · -- parse_var_expr
      intro st
      simp only [parse_var_expr]
      refine bind_pres (advance_pres st) fun _ st1 => ?_
      refine bind_pres (ih_decls [] st1) fun vars st2 => ?_
      exact bind_pres (ih_expr st2) fun _ _ => rfl
    · -- parse_var_decls
      intro vars st
      simp only [parse_var_decls]
      refine bind_pres (curr_pres st) ?_
      intro t st1
      cases t <;> try rfl
      refine bind_pres (advance_pres st1) fun _ st2 => ?_
      refine bind_pres (curr_pres st2) ?_
      intro t st3
      refine bind_pres ?_ fun ini st4 => ?_
      · cases t <;> try rfl
        split
        case _ =>
          exact bind_pres (advance_pres st3) fun _ st4 =>
            bind_pres (ih_expr st4) fun _ _ => rfl
        case _ => rfl
      refine bind_pres (curr_pres st4) ?_
      intro t st5
      cases t <;> try rfl
      · exact bind_pres (advance_pres st5) fun _ st6 => ih_decls _ st6
      · exact bind_pres (advance_pres st5) fun _ _ => rfl

theorem params_loop_pres : ∀ (fuel : Nat) (args : List String) (st : PState),
    ((params_loop fuel args st).finalSt).prec = st.prec := by
  intro fuel
  induction fuel with
  | zero => intro args st; rfl
  | succ fuel ih =>
    intro args st
    simp only [params_loop]
    refine bind_pres (curr_pres st) ?_
    intro t st1
    cases t <;> try rfl
    refine bind_pres (advance_pres st1) fun _ st2 => ?_
    refine bind_pres (curr_pres st2) ?_
    intro t st3
    cases t <;> try rfl
    · exact discard_pres (advance_pres st3) fun st4 => ih _ st4
    · exact discard_pres (advance_pres st3) fun _ => rfl

theorem proto_tail_pres (fuel : Nat) (id : String) (b : Bool) (p : Nat) (st : PState) :
    ((proto_tail fuel id b p st).finalSt).prec = st.prec := by
  unfold proto_tail
  refine bind_pres (curr_pres st) ?_
  intro t st1
  cases t <;> try rfl
  refine bind_pres (advance_pres st1) fun _ st2 => ?_
  refine bind_pres (curr_pres st2) ?_
  intro t st3
  cases t <;>
    first
      | exact discard_pres (advance_pres st3) fun _ => rfl
      | exact bind_pres (params_loop_pres fuel [] st3) fun _ _ => rfl

/-- A parser step either leaves the precedence table unchanged or performs
a single insert on it. -/
abbrev TableOr {α : Type} (x : PResult α) (st : PState) : Prop :=
  ((x.finalSt).prec = st.prec) ∨
    ∃ c p, (x.finalSt).prec = precInsert c p (st.prec)

theorem TableOr.mono {α : Type} {x : PResult α} {st1 st0 : PState}
    (h : TableOr x st1) (hp : st1.prec = st0.prec) : TableOr x st0 := by
  rcases h with hl | ⟨c, p, hr⟩
  · exact Or.inl (hl.trans hp)
  · exact Or.inr ⟨c, p, hr.trans (by rw [hp])⟩

theorem bind_tableOr {α β : Type} {x : PResult α} {st0 : PState}
    {f : α → PState → PResult β}
    (hx : (x.finalSt).prec = st0.prec)
    (hf : ∀ a st1, TableOr (f a st1) st1) : TableOr (x.bind f) st0 := by
  cases x with
  | ok a st => exact (hf a st).mono hx
  | err e st => exact Or.inl hx
  | panic st => exact Or.inl hx
  | out st => exact Or.inl hx

theorem bind_tableOr_left {α β : Type} {x : PResult α} {st0 : PState}
    {f : α → PState → PResult β}
    (hx : TableOr x st0)
    (hf : ∀ a st1, ((f a st1).finalSt).prec = st1.prec) : TableOr (x.bind f) st0 := by
  cases x with
  | ok a st =>
    rcases hx with hl | ⟨c, p, hr⟩
    · exact Or.inl ((hf a st).trans hl)
    · exact Or.inr ⟨c, p, (hf a st).trans hr⟩
  | err e st => exact hx
  | panic st => exact hx
  | out st => exact hx

/-- `parse_prototype` either leaves the precedence table unchanged (plain
identifier and `unary` heads, and every early error) or performs exactly
the one `binary`-head insert. -/
theorem parse_prototype_prec (fuel : Nat) (st : PState) :
    TableOr (parse_prototype fuel st) st := by
  unfold parse_prototype
  refine bind_tableOr (curr_pres st) ?_
  intro t st1
  cases t <;> try exact Or.inl rfl
  · -- Binary head
    refine bind_tableOr (advance_pres st1) ?_
    intro _ st2
    refine bind_tableOr (curr_pres st2) ?_
    intro t st3
    cases t <;> try exact Or.inl rfl
    rename_i op
    refine bind_tableOr (advance_pres st3) ?_
    intro _ st4
    refine bind_tableOr (curr_pres st4) ?_
    intro t st5
    refine bind_tableOr ?_ ?_
    · -- the optional precedence-number literal
      cases t <;> try rfl
      exact bind_pres (advance_pres st5) fun _ _ => rfl
    · -- the insert, then the shared prototype tail
      intro p st6
      exact Or.inr ⟨op, Int.ofNat p, (proto_tail_pres fuel _ true p _).trans rfl⟩
  · -- Ident head: no table write
    exact Or.inl (bind_pres (advance_pres st1) fun _ st2 =>
      proto_tail_pres fuel _ false 0 st2)
  · -- Unary head: no table write
    refine Or.inl (bind_pres (advance_pres st1) ?_)
    intro _ st2
    refine bind_pres (curr_pres st2) ?_
    intro t st3
    cases t <;> try rfl
    exact bind_pres (advance_pres st3) fun _ st4 => proto_tail_pres fuel _ true 0 st4

theorem finish_finalSt (x : PResult Func) :
    (finish_toplevel x).finalSt = x.finalSt := by
  unfold finish_toplevel
  cases x with
  | ok r st => dsimp only; split <;> rfl
  | err e st => rfl
  | panic st => rfl
  | out st => rfl

/-- `parse_def` frames the precedence table exactly as its prototype phase
does: unchanged, or changed by the single `binary`-head insert. -/
theorem parse_def_prec (fuel : Nat) (st : PState) :
    TableOr (parse_def fuel st) st := by
  unfold parse_def
  refine bind_tableOr_left ?_ fun proto st1 =>
    bind_pres ((expr_family_pres fuel).1 st1) fun _ _ => rfl
  exact (parse_prototype_prec fuel _).mono rfl

theorem parse_extern_prec (fuel : Nat) (st : PState) :
    TableOr ( parse_extern fuel st) st := by
  unfold parse_extern
  refine bind_tableOr_left ?_ fun proto st1 => rfl
  exact (parse_prototype_prec fuel _).mono rfl

theorem parse_toplevel_pres (fuel : Nat) (st : PState) :
    ((parse_toplevel_expr fuel st).finalSt).prec = st.prec := by
  unfold parse_toplevel_expr
  exact bind_pres ((expr_family_pres fuel).1 st) fun _ _ => rfl

/-- Across one whole `parse` call, the shared precedence table is either
untouched or changed by exactly one insert, on every outcome. -/
theorem parse_prec_frame (fuel : Nat) (st : PState) :
    TableOr (parse fuel st) st := by
  unfold parse
  refine bind_tableOr (current_pres st) ?_
  intro t st1
  have hdisp : TableOr
      (match t with
       | Token.Def => parse_def fuel st1
       | Token.Extern => parse_extern fuel st1
       | _ => parse_toplevel_expr fuel st1) st1 := by
    cases t
    case Def => exact parse_def_prec fuel st1
    case Extern => exact parse_extern_prec fuel st1
    all_goals exact Or.inl (parse_toplevel_pres fuel st1)
  rcases hdisp with hl | ⟨c, p, hr⟩
  · exact Or.inl ((congrArg PState.prec (finish_finalSt _)).trans hl)
  · exact Or.inr ⟨c, p, (congrArg PState.prec (finish_finalSt _)).trans hr⟩

theorem finish_ok {x : PResult Func} {f : Func} {st' : PState}
    (h : finish_toplevel x = PResult.ok f st') : at_end st' = true := by
  unfold finish_toplevel at h
  cases x with
  | ok r st =>
    dsimp only at h
    split at h
    · exact PResult.noConfusion h
    · rename_i hcond
      injection h with h1 h2
      subst h2
      simpa using hcond
  | err e st => exact PResult.noConfusion h
  | panic st => exact PResult.noConfusion h
  | out st => exact PResult.noConfusion h

/-- Whenever `parse` succeeds, the cursor is at (or past) the end of the
token sequence: a successful parse never leaves tokens unconsumed. -/
theorem parse_ok_at_end (fuel : Nat) (st : PState) (f : Func) (st' : PState)
    (h : parse fuel st = PResult.ok f st') : at_end st' = true := by
  unfold parse at h
  cases hc : current st with
  | err e stx => rw [hc] at h; exact PResult.noConfusion h
  | panic stx => rw [hc] at h; exact PResult.noConfusion h
  | out stx => rw [hc] at h; exact PResult.noConfusion h
  | ok t stx =>
    rw [hc] at h
    dsimp only [PResult.bind] at h
    exact finish_ok h

/-- `advance` at a position whose successor is still in bounds. -/
theorem advance_ok {st : PState} {n : Nat} (hn : st.pos + 1 = n)
    (h : n < st.tokens.length) :
    advance st = PResult.ok () { st with pos := n } := by
  simp only [advance, hn]
  rw [if_pos h]

/-- On a token sequence opening `def binary <op> <number>` with at least one
further token, the prototype phase deterministically runs the `binary` head
through the insert: whatever happens afterwards (the tail may succeed, fail
or run out of fuel), the final table is the input table with the one entry
overwritten. -/
theorem proto_binary_insert (fuel : Nat) (c : Char) (lx : String) (r0 : Token)
    (rest : List Token) (p0 : Char → Option Int) :
    ((parse_prototype fuel { tokens := Token.Def :: Token.Binary :: Token.Op c :: Token.Number lx :: r0 :: rest, pos := 1, prec := p0 }).finalSt).prec = precInsert c (Int.ofNat (precNumVal lx)) p0 := by
  have hlen2 : (2:Nat) < (Token.Def :: Token.Binary :: Token.Op c :: Token.Number lx :: r0 :: rest).length := by
    simp only [List.length_cons]; omega
  have hlen3 : (3:Nat) < (Token.Def :: Token.Binary :: Token.Op c :: Token.Number lx :: r0 :: rest).length := by
    simp only [List.length_cons]; omega
  have hlen4 : (4:Nat) < (Token.Def :: Token.Binary :: Token.Op c :: Token.Number lx :: r0 :: rest).length := by
    simp only [List.length_cons]; omega
  unfold parse_prototype
  rw [show curr { tokens := Token.Def :: Token.Binary :: Token.Op c :: Token.Number lx :: r0 :: rest, pos := 1, prec := p0 } = PResult.ok Token.Binary { tokens := Token.Def :: Token.Binary :: Token.Op c :: Token.Number lx :: r0 :: rest, pos := 1, prec := p0 } from rfl]
  dsimp only [PResult.bind]
  rw [advance_ok rfl hlen2]
  dsimp only [PResult.bind]
  rw [show curr { tokens := Token.Def :: Token.Binary :: Token.Op c :: Token.Number lx :: r0 :: rest, pos := 2, prec := p0 } = PResult.ok (Token.Op c) { tokens := Token.Def :: Token.Binary :: Token.Op c :: Token.Number lx :: r0 :: rest, pos := 2, prec := p0 } from rfl]
  dsimp only [PResult.bind]
  rw [advance_ok rfl hlen3]
  dsimp only [PResult.bind]
  rw [show curr { tokens := Token.Def :: Token.Binary :: Token.Op c :: Token.Number lx :: r0 :: rest, pos := 3, prec := p0 } = PResult.ok (Token.Number lx) { tokens := Token.Def :: Token.Binary :: Token.Op c :: Token.Number lx :: r0 :: rest, pos := 3, prec := p0 } from rfl]
  dsimp only [PResult.bind]
  rw [advance_ok rfl hlen4]
  dsimp only [PResult.bind]
  exact (proto_tail_pres fuel _ true _ _).trans rfl

/-- `bind_pres` with the preserved table given by an explicit value. -/
theorem bind_pres_val {α β : Type} {x : PResult α} {P : Char → Option Int}
    {f : α → PState → PResult β}
    (hx : ((x.finalSt).prec) = P)
    (hf : ∀ a st1, (((f a st1)).finalSt).prec = st1.prec) :
    (((x.bind f)).finalSt).prec = P := by
  cases x with
  | ok a st => exact (hf a st).trans hx
  | err e st => exact hx
  | panic st => exact hx
  | out st => exact hx

/-- When the token sequence opens `def binary <op> <number>` and at least
one token follows the number literal, the whole `parse` reaches the
`binary`-head insert, and nothing afterwards can change the table again: on
every outcome the final table is exactly the seeded table with that one
entry overwritten. -/
theorem binary_head_insert (fuel : Nat) (c : Char) (lx : String) (r0 : Token)
    (rest : List Token) (prec0 : Char → Option Int) :
    ((parse fuel { tokens := Token.Def :: Token.Binary :: Token.Op c :: Token.Number lx :: r0 :: rest, pos := 0, prec := prec0 }).finalSt).prec = precInsert c (Int.ofNat (precNumVal lx)) prec0 := by
  rw [show parse fuel { tokens := Token.Def :: Token.Binary :: Token.Op c :: Token.Number lx :: r0 :: rest, pos := 0, prec := prec0 } = finish_toplevel (parse_def fuel { tokens := Token.Def :: Token.Binary :: Token.Op c :: Token.Number lx :: r0 :: rest, pos := 0, prec := prec0 }) from rfl]
  rw [congrArg PState.prec (finish_finalSt _)]
  rw [show parse_def fuel { tokens := Token.Def :: Token.Binary :: Token.Op c :: Token.Number lx :: r0 :: rest, pos := 0, prec := prec0 } = (parse_prototype fuel { tokens := Token.Def :: Token.Binary :: Token.Op c :: Token.Number lx :: r0 :: rest, pos := 1, prec := prec0 }).bind (fun proto st => (parse_expr fuel st).bind fun body st => PResult.ok { prototype := proto, body := some body, is_anon := false } st) from rfl]
  exact bind_pres_val (proto_binary_insert fuel c lx r0 rest prec0) fun proto st1 =>
    bind_pres ((expr_family_pres fuel).1 st1) fun _ _ => rfl

/-! ## Lexer lemmas: no error value, no `EOF` token in a collected stream -/

theorem lexNumber_ok : ∀ (cs acc : List Char), ∃ t, (lexNumber acc cs).1 = Except.ok t := by
  intro cs
  induction cs with
  | nil => intro acc; exact ⟨Token.EOF, rfl⟩
  | cons c rest ih =>
    intro acc
    simp only [lexNumber]
    split
    · exact ih (acc ++ [c])
    · exact ⟨Token.Number (String.mk acc), rfl⟩

theorem lexIdent_ok : ∀ (cs acc : List Char), ∃ t, (lexIdent acc cs).1 = Except.ok t := by
  intro cs
  induction cs with
  | nil => intro acc; exact ⟨Token.EOF, rfl⟩
  | cons c rest ih =>
    intro acc
    simp only [lexIdent]
    split
    · exact ih (acc ++ [c])
    · exact ⟨keywordOrIdent (String.mk acc), rfl⟩

/-- `Lexer::lex` never produces the `Err` variant of `LexResult`: every
terminating call returns `Ok`. -/
theorem lex_no_error : ∀ (cs : List Char) (r : LexResult) (rest : List Char),
    lex cs = some (r, rest) → ∃ t, r = Except.ok t := by
  intro cs
  induction cs with
  | nil =>
    intro r rest h
    simp only [lex, Option.some.injEq, Prod.mk.injEq] at h
    exact ⟨Token.EOF, h.1.symm⟩
  | cons c rest' ih =>
    intro r rest h
    simp only [lex] at h
    split at h
    · exact ih r rest h
    split at h
    · simp only [Option.some.injEq, Prod.mk.injEq] at h
      exact ⟨Token.LParen, h.1.symm⟩
    split at h
    · simp only [Option.some.injEq, Prod.mk.injEq] at h
      exact ⟨Token.RParen, h.1.symm⟩
    split at h
    · simp only [Option.some.injEq, Prod.mk.injEq] at h
      exact ⟨Token.Comma, h.1.symm⟩
    split at h
    · rw [Option.map_eq_some'] at h
      obtain ⟨rest2, _, heq⟩ := h
      exact ⟨Token.Comment, (congrArg Prod.fst heq).symm⟩
    split at h
    · obtain ⟨t, ht⟩ := lexNumber_ok rest' [c]
      simp only [Option.some.injEq] at h
      exact ⟨t, by rw [h] at ht; exact ht⟩
    split at h
    · obtain ⟨t, ht⟩ := lexIdent_ok rest' [c]
      simp only [Option.some.injEq] at h
      exact ⟨t, by rw [h] at ht; exact ht⟩
    · simp only [Option.some.injEq, Prod.mk.injEq] at h
      exact ⟨Token.Op c, h.1.symm⟩

/-- A collected token stream (the `Iterator` run to completion) never
contains the `EOF` token: end-of-input ends the stream instead of
surfacing in it. -/
theorem lexCollect_no_eof : ∀ (fuel : Nat) (cs : List Char) (ts : List Token),
    lexCollect fuel cs = some ts → Token.EOF ∉ ts := by
  intro fuel
  induction fuel with
  | zero => intro cs ts h; exact absurd h (by simp [lexCollect])
  | succ fuel ih =>
    intro cs ts h
    simp only [lexCollect] at h
    cases hl : lex cs with
    | none => rw [hl] at h; exact absurd h (by simp)
    | some pr =>
      obtain ⟨r, rest⟩ := pr
      rw [hl] at h
      cases r with
      | error e =>
        simp only [Option.some.injEq] at h
        rw [← h]
        simp
      | ok t =>
        dsimp only at h
        split at h
        · simp only [Option.some.injEq] at h
          rw [← h]
          simp
        · rename_i hne
          rw [Option.map_eq_some'] at h
          obtain ⟨ts', hts', rfl⟩ := h
          intro hmem
          rcases List.mem_cons.mp hmem with heq | hmem'
          · exact hne heq.symm
          · exact ih rest ts' hts' hmem'

/-! ## The claims -/

/-- C1, counterexample to "tokenization always terminates": lexing an input
that ends inside a line comment with no terminating newline diverges (the
comment loop only breaks on `Some('\n')`, and `chars.next()` returns `None`
forever at end-of-input), so `Lexer::lex` never returns and `Parser::new`
never finishes collecting the token sequence — the code hangs instead of
yielding a comment token as the specification states. -/
theorem c1_comment_at_eof_diverges :
    lex ("# comment".toList) = none ∧ parser_new "# comment" builtinPrec = none :=
  ⟨rfl, rfl⟩

/-- C2, counterexample: `"def foo(a b) a+b"` does not parse; the parameter
loop requires a `,` or `)` after each identifier, so the space-separated
list `(a b)` is rejected with the prototype-declaration error. -/
theorem c2_counterexample :
    parseProgram "def foo(a b) a+b" builtinPrec
      = some (PResult.err "Expected ',' or ')' character in prototype declaration."
          { tokens := [Token.Def, Token.Ident "foo", Token.LParen, Token.Ident "a", Token.Ident "b", Token.RParen, Token.Ident "a", Token.Op '+'], pos := 4, prec := builtinPrec }) :=
  rfl

/-- C2, amended: with the parameters comma-separated and a trailing
whitespace character (so the final identifier is not discarded by the
lexer's end-of-input handling), `"def foo(a, b) a+b "` parses to a
`Function` with `prototype.args == ["a","b"]`, `is_anon == false` and
`body == Some(Binary{op:'+', left:Variable("a"), right:Variable("b")})`. -/
theorem c2_amended :
    parseProgram "def foo(a, b) a+b " builtinPrec
      = some (PResult.ok
          { prototype := { name := "foo", args := ["a", "b"], is_op := false, prec := 0 },
            body := some (Expr.Binary '+' (Expr.Variable "a") (Expr.Variable "b")),
            is_anon := false }
          { tokens := [Token.Def, Token.Ident "foo", Token.LParen, Token.Ident "a", Token.Comma, Token.Ident "b", Token.RParen, Token.Ident "a", Token.Op '+', Token.Ident "b"], pos := 10, prec := builtinPrec }) :=
  rfl

/-- C3, counterexample: for the source text `"1"` (exactly one numeric
literal, no trailing characters) the lexer does not yield a `Number` token:
the number loop's end-of-input branch executes `return Ok(EOF)`, discarding
the scanned literal, so the collected token sequence is empty and `parse`
fails with "Unexpected end of file." instead of producing the anonymous
function the claim describes. -/
theorem c3_counterexample :
    tokensOf "1" = some [] ∧
    parseProgram "1" builtinPrec
      = some (PResult.err "Unexpected end of file." { tokens := [], pos := 0, prec := builtinPrec }) :=
  ⟨rfl, rfl⟩

/-- C3, amended: a numeric literal that reaches end-of-input mid-token is
swallowed — `lex` returns `Ok(EOF)` and the literal is lost, so the parse
of a bare trailing number fails with "Unexpected end of file.".  The
claimed behaviour (single `Number` token, `Ok` anonymous function around
`Number`) holds as soon as any character follows the literal, e.g. the
trailing whitespace of `"2.5 "`. -/
theorem c3_amended :
    lex ("1".toList) = some (Except.ok Token.EOF, []) ∧
    tokensOf "1" = some [] ∧
    tokensOf "2.5 " = some [Token.Number "2.5"] ∧
    parseProgram "2.5 " builtinPrec
      = some (PResult.ok
          { prototype := { name := "anonymous", args := [], is_op := false, prec := 0 },
            body := some (Expr.Number "2.5"), is_anon := true }
          { tokens := [Token.Number "2.5"], pos := 1, prec := builtinPrec }) :=
  ⟨rfl, rfl, rfl, rfl⟩

/-- C4, counterexample: `"a - b - c"` (no trailing character) does not
produce the left-associated tree — the final identifier `c` is discarded by
the lexer's end-of-input handling, and the parse fails with
"Unexpected end of file." when the second `-` looks for its operand. -/
theorem c4_counterexample :
    parseProgram "a - b - c" builtinPrec
      = some (PResult.err "Unexpected end of file."
          { tokens := [Token.Ident "a", Token.Op '-', Token.Ident "b", Token.Op '-'], pos := 4, prec := builtinPrec }) :=
  rfl

/-- C4, amended: with a trailing whitespace character keeping the last
identifier alive, precedence climbing over the seeded table gives exactly
the claimed trees: `"a - b - c "` parses as `(a - b) - c` and
`"a + b * c "` as `a + (b * c)`, each wrapped in an anonymous function. -/
theorem c4_amended :
    parseProgram "a - b - c " builtinPrec
      = some (PResult.ok
          { prototype := { name := "anonymous", args := [], is_op := false, prec := 0 },
            body := some (Expr.Binary '-' (Expr.Binary '-' (Expr.Variable "a") (Expr.Variable "b")) (Expr.Variable "c")),
            is_anon := true }
          { tokens := [Token.Ident "a", Token.Op '-', Token.Ident "b", Token.Op '-', Token.Ident "c"], pos := 5, prec := builtinPrec }) ∧
    parseProgram "a + b * c " builtinPrec
      = some (PResult.ok
          { prototype := { name := "anonymous", args := [], is_op := false, prec := 0 },
            body := some (Expr.Binary '+' (Expr.Variable "a") (Expr.Binary '*' (Expr.Variable "b") (Expr.Variable "c"))),
            is_anon := true }
          { tokens := [Token.Ident "a", Token.Op '+', Token.Ident "b", Token.Op '*', Token.Ident "c"], pos := 5, prec := builtinPrec }) :=
  ⟨rfl, rfl⟩

/-- C5, counterexample: `"1 2"` does not fail with the structural error —
the trailing `2` reaches end-of-input mid-token and is discarded by the
lexer, so the token sequence is just `[Number 1]` and the parse silently
succeeds with the truncated expression. -/
theorem c5_counterexample :
    parseProgram "1 2" builtinPrec
      = some (PResult.ok
          { prototype := { name := "anonymous", args := [], is_op := false, prec := 0 },
            body := some (Expr.Number "1"), is_anon := true }
          { tokens := [Token.Number "1"], pos := 1, prec := builtinPrec }) :=
  rfl

/-- C5, amended: at the level of the token sequence the leftover-token rule
does hold — whenever `parse` succeeds, the cursor is at or past the end, so
a successful production with unconsumed tokens is impossible; and on
`"1 2 "` (trailing whitespace keeps the second literal alive) the parse
fails with exactly "Unexpected token after parsed expression.". -/
theorem c5_amended :
    (∀ (fuel : Nat) (st : PState) (f : Func) (st' : PState),
      parse fuel st = PResult.ok f st' → at_end st' = true) ∧
    parseProgram "1 2 " builtinPrec
      = some (PResult.err "Unexpected token after parsed expression."
          { tokens := [Token.Number "1", Token.Number "2"], pos := 1, prec := builtinPrec }) :=
  ⟨parse_ok_at_end, rfl⟩

/-- C5, witness for the amended claim: instantiating the leftover-token rule
at the successful parse of `"1 2"`'s token sequence. -/
theorem c5_witness :
    at_end { tokens := [Token.Number "1"], pos := 1, prec := builtinPrec } = true :=
  c5_amended.1 68 { tokens := [Token.Number "1"], pos := 0, prec := builtinPrec }
    { prototype := { name := "anonymous", args := [], is_op := false, prec := 0 },
      body := some (Expr.Number "1"), is_anon := true }
    { tokens := [Token.Number "1"], pos := 1, prec := builtinPrec } rfl

/-- C6, counterexample: parsing a `binary` declaration *without* a
precedence number does not leave the table unchanged — the insert is
unconditional in the `binary` head, so `"def binary! (x) x "` installs the
entry `'!' ↦ 0` into a table that had no entry for `'!'`. -/
theorem c6_counterexample :
    parseProgram "def binary! (x) x " builtinPrec
      = some (PResult.ok
          { prototype := { name := "binary!", args := ["x"], is_op := true, prec := 0 },
            body := some (Expr.Variable "x"), is_anon := false }
          { tokens := [Token.Def, Token.Binary, Token.Op '!', Token.LParen, Token.Ident "x", Token.RParen, Token.Ident "x"], pos := 7, prec := precInsert '!' (Int.ofNat 0) builtinPrec }) ∧
    builtinPrec '!' = none ∧
    precInsert '!' (Int.ofNat 0) builtinPrec '!' = some 0 :=
  ⟨rfl, rfl, rfl⟩

/-- C6, amended: during a single parse the shared precedence table is
mutated only by the single insert of a `binary` operator declaration head —
on every outcome the final table is the input table or the input table with
exactly one entry overwritten — and when an explicit precedence number is
present the entry is set to that number (`"def binary$ 60 (x) x "` installs
`'$' ↦ 60`); without a number the entry is set to 0, not left unchanged. -/
theorem c6_amended :
    (∀ (fuel : Nat) (st : PState),
      ((parse fuel st).finalSt).prec = st.prec ∨
        ∃ c p, ((parse fuel st).finalSt).prec = precInsert c p st.prec) ∧
    parseProgram "def binary$ 60 (x) x " builtinPrec
      = some (PResult.ok
          { prototype := { name := "binary$", args := ["x"], is_op := true, prec := 60 },
            body := some (Expr.Variable "x"), is_anon := false }
          { tokens := [Token.Def, Token.Binary, Token.Op '$', Token.Number "60", Token.LParen, Token.Ident "x", Token.RParen, Token.Ident "x"], pos := 8, prec := precInsert '$' (Int.ofNat 60) builtinPrec }) :=
  ⟨fun fuel st => parse_prec_frame fuel st, rfl⟩

/-- C7, counterexample: not every needs-a-token-at-end-of-sequence
condition is reported as the normalized error value — productions that read
through the unchecked `curr` index out of bounds instead.  `"def "` lexes
to the single token `def`; `parse_def` bumps the cursor past the end and
`parse_prototype`'s `curr` panics (`self.tokens[self.pos]` with
`pos == len`), so the parse panics rather than returning
"Unexpected end of file.". -/
theorem c7_counterexample :
    parseProgram "def " builtinPrec
      = some (PResult.panic { tokens := [Token.Def], pos := 1, prec := builtinPrec }) :=
  rfl

/-- C7, amended: the *checked* cursor operations do normalize exhaustion to
the single message — `current` at or past the end, and `advance` moving to
or past the end, both return exactly "Unexpected end of file.", and the
input `"def"` (whose `def` keyword is itself discarded by the lexer's
end-of-input handling, leaving an empty token sequence) fails with that
message; but productions using the unchecked `curr` panic instead (see the
counterexample), so the normalization is not universal. -/
theorem c7_amended :
    (∀ st : PState, st.tokens.length ≤ st.pos →
      current st = PResult.err "Unexpected end of file." st) ∧
    (∀ st : PState, st.tokens.length ≤ st.pos + 1 →
      advance st = PResult.err "Unexpected end of file." { st with pos := st.pos + 1 }) ∧
    parseProgram "def" builtinPrec
      = some (PResult.err "Unexpected end of file." { tokens := [], pos := 0, prec := builtinPrec }) := by
  refine ⟨?_, ?_, rfl⟩
  · intro st h
    simp only [current]
    rw [List.get?_eq_none.mpr h]
  · intro st h
    simp only [advance]
    rw [if_neg (by omega)]

/-- C7, witness for the amended claim: the checked accessors at concrete
exhausted states. -/
theorem c7_witness :
    current { tokens := [], pos := 0, prec := builtinPrec }
        = PResult.err "Unexpected end of file." { tokens := [], pos := 0, prec := builtinPrec } ∧
    advance { tokens := [Token.Def], pos := 0, prec := builtinPrec }
        = PResult.err "Unexpected end of file." { tokens := [Token.Def], pos := 1, prec := builtinPrec } :=
  ⟨c7_amended.1 { tokens := [], pos := 0, prec := builtinPrec } (by simp),
   c7_amended.2.1 { tokens := [Token.Def], pos := 0, prec := builtinPrec } (by simp)⟩

/-- C8: a single-character operator symbol absent from the precedence table
is given precedence 100 by `get_tok_precedence`, which is tighter than
every built-in entry (2, 10, 20, 40), and such an operator is accepted into
a `Binary` node rather than rejected: `"x $ y "` parses successfully to the
anonymous function around `Binary{op:'$'}` under the seeded table, which
has no entry for `'$'`. -/
theorem c8_unknown_op_binds_at_100 :
    (∀ (st : PState) (c : Char),
      current st = PResult.ok (Token.Op c) st → st.prec c = none →
      get_tok_precedence st = 100) ∧
    (∀ (c : Char) (p : Int), builtinPrec c = some p → p < 100) ∧
    parseProgram "x $ y " builtinPrec
      = some (PResult.ok
          { prototype := { name := "anonymous", args := [], is_op := false, prec := 0 },
            body := some (Expr.Binary '$' (Expr.Variable "x") (Expr.Variable "y")),
            is_anon := true }
          { tokens := [Token.Ident "x", Token.Op '$', Token.Ident "y"], pos := 3, prec := builtinPrec }) := by
  refine ⟨?_, ?_, rfl⟩
  · intro st c hc hn
    simp only [get_tok_precedence, hc, hn]
    rfl
  · intro c p hp
    unfold builtinPrec at hp
    split_ifs at hp <;> cases hp <;> decide

/-- C8, witness: the default applies at a concrete state whose current
token is the unregistered operator `'$'`, and a concrete built-in entry is
below 100. -/
theorem c8_witness :
    get_tok_precedence { tokens := [Token.Op '$'], pos := 0, prec := builtinPrec } = 100 ∧
    (20 : Int) < 100 :=
  ⟨c8_unknown_op_binds_at_100.1 { tokens := [Token.Op '$'], pos := 0, prec := builtinPrec } '$' rfl rfl,
   c8_unknown_op_binds_at_100.2.1 '+' 20 rfl⟩

/-- C9: `Lexer::lex` never returns the `Err` variant of `LexResult` (every
terminating call yields `Ok`), and a token sequence collected through the
`Iterator` implementation (which ends the stream on `Ok(EOF)` or `Err`)
never contains the `EOF` token — so neither the parser nor any caller can
ever observe a lexical error value or an `EOF` token in the stream. -/
theorem c9_no_lex_error_no_eof_token :
    (∀ (cs : List Char) (r : LexResult) (rest : List Char),
      lex cs = some (r, rest) → ∃ t, r = Except.ok t) ∧
    (∀ (fuel : Nat) (cs : List Char) (ts : List Token),
      lexCollect fuel cs = some ts → Token.EOF ∉ ts) :=
  ⟨lex_no_error, lexCollect_no_eof⟩

/-- C9, witness: both parts instantiated on concrete lexing runs. -/
theorem c9_witness :
    (∃ t, (Except.ok (Token.Ident "ab") : LexResult) = Except.ok t) ∧
    Token.EOF ∉ [Token.Number "1"] :=
  ⟨c9_no_lex_error_no_eof_token.1 ("ab ".toList) (Except.ok (Token.Ident "ab")) [' '] rfl,
   c9_no_lex_error_no_eof_token.2 3 ("1 ".toList) [Token.Number "1"] rfl⟩

/-- C10: parse failure does not roll back the precedence-table mutation.
Whenever the token sequence opens with a `binary` operator prototype head
(`def`, `binary`, the operator symbol, a precedence-number literal) that is
fully parsed (at least one token follows the number, so the head's final
advance succeeds and the insert executes) and `parse` then returns an
error, the entry inserted for that operator symbol is still present in the
shared table carried by the error outcome. -/
theorem c10_no_rollback_on_error :
    ∀ (fuel : Nat) (c : Char) (lx : String) (rest : List Token)
      (prec0 : Char → Option Int) (e : String) (st' : PState),
      rest ≠ [] →
      parse fuel { tokens := [Token.Def, Token.Binary, Token.Op c, Token.Number lx] ++ rest, pos := 0, prec := prec0 } = PResult.err e st' →
      st'.prec c = some (Int.ofNat (precNumVal lx)) := by
  intro fuel c lx rest prec0 e st' hne h
  cases rest with
  | nil => exact absurd rfl hne
  | cons r0 rest' =>
    simp only [List.cons_append, List.nil_append] at h
    have hins := binary_head_insert fuel c lx r0 rest' prec0
    rw [h] at hins
    dsimp only [PResult.finalSt] at hins
    rw [hins]
    simp [precInsert]

/-- C10, witness: the malformed declaration `def binary$ 50 (x y) x` (its
parameter list lacks the required comma) fails in the parameter loop, and
the error outcome's table still maps `'$'` to 50. -/
theorem c10_witness :
    (PState.mk [Token.Def, Token.Binary, Token.Op '$', Token.Number "50", Token.LParen, Token.Ident "x", Token.Ident "y", Token.RParen, Token.Ident "x"] 6 (precInsert '$' (Int.ofNat 50) builtinPrec)).prec '$'
      = some (Int.ofNat (precNumVal "50")) :=
  c10_no_rollback_on_error 140 '$' "50"
    [Token.LParen, Token.Ident "x", Token.Ident "y", Token.RParen, Token.Ident "x"]
    builtinPrec "Expected ',' or ')' character in prototype declaration."
    (PState.mk [Token.Def, Token.Binary, Token.Op '$', Token.Number "50", Token.LParen, Token.Ident "x", Token.Ident "y", Token.RParen, Token.Ident "x"] 6 (precInsert '$' (Int.ofNat 50) builtinPrec))
    (by simp) rfl

end MFL
